import Mathlib

/-!
Verification of the database mapping layer (package `db`): column metadata
parsing (`NewColumnFromFieldTag`), column collection generation and derived
subsets (`column_collection.go`), the process-wide metadata cache, the
reflection-based `Column.SetValue` contract, and the `Connection`
open/close lifecycle (`connection.go`).

Go strings are modelled as lists of characters (`GoStr`); the tag strings
involved are plain ASCII, for which `Char.toLower` agrees with Go's
`strings.ToLower`.
-/

/-- Go strings, modelled as character lists. -/
abbrev GoStr := List Char

/-- Literal coercion from a Lean string literal to a `GoStr`. -/
def gs (s : String) : GoStr := s.data

/-- Model of Go `strings.ToLower` (ASCII inputs). -/
def goToLower (s : GoStr) : GoStr := s.map Char.toLower

/-- Model of Go `strings.Split(s, sep)` for a one-character separator. -/
def goSplit (sep : Char) (s : GoStr) : List GoStr := s.splitOn sep

/-- Model of Go `strings.Join(parts, sep)` for a one-character separator. -/
def goJoin (sep : Char) (parts : List GoStr) : GoStr := [sep].intercalate parts

/-- Model of Go `strings.Contains(s, sub)`. -/
def goContains (s sub : GoStr) : Bool := decide (sub <:+: s)

/-- Model of Go `strings.HasPrefix(s, pre)`. -/
def goStartsWith (s pre : GoStr) : Bool := decide (pre <+: s)

/-- Model of `db.Column` (column_collection.go): metadata for one mapped
struct field. `reflect.Type` values are modelled as numeric type ids. -/
structure Column where
  tableName : GoStr := []
  fieldName : GoStr := []
  fieldType : Nat := 0
  columnName : GoStr := []
  index : Nat := 0
  isPrimaryKey : Bool := false
  isAuto : Bool := false
  isNullable : Bool := false
  isReadOnly : Bool := false
  isJSON : Bool := false
deriving DecidableEq, Repr

instance : Inhabited Column := ⟨{}⟩

/-- Model of a `reflect.StructField` as consumed by the mapping layer:
its name, its type id, whether it is anonymous/embedded, and the value of
its `db` struct tag (Go's `Tag.Get("db")` returns the empty string when
the tag is absent). -/
structure StructField where
  name : GoStr
  fieldType : Nat := 0
  dbTag : GoStr
  anonymous : Bool := false
deriving DecidableEq, Repr

/-- Model of `NewColumnFromFieldTag` (column_collection.go lines 433-461).
A descriptor of exactly `-` excludes the field (`nil` result, modelled as
`none`). Otherwise the column name defaults to the lower-cased field name;
a descriptor not starting with a comma overrides the name with the text
before the first comma; the flag booleans are set by substring search over
the lower-cased comma-joined remainder (the Go guard `len(pieces) >= 1` is
always true since `strings.Split` of a nonempty string is nonempty, so it
is inlined here). -/
def NewColumnFromFieldTag (field : StructField) : Option Column :=
  let db := field.dbTag
  if db = gs "-" then none
  else
    let base : Column :=
      { fieldName := field.name
        columnName := goToLower field.name
        fieldType := field.fieldType }
    if db = gs "" then some base
    else
      let pieces := goSplit ',' db
      let c1 :=
        if goStartsWith db (gs ",") then base
        else { base with columnName := pieces.headD (gs "") }
      let args := goToLower (goJoin ',' (pieces.drop 1))
      some { c1 with
        isPrimaryKey := goContains args (gs "pk")
        isAuto := goContains args (gs "serial") || goContains args (gs "auto")
        isReadOnly := goContains args (gs "readonly")
        isNullable := goContains args (gs "nullable")
        isJSON := goContains args (gs "json") }

/-- The six flag words of the descriptor grammar, in lower case. -/
def sixFlagWords : List GoStr :=
  [gs "pk", gs "auto", gs "serial", gs "readonly", gs "nullable", gs "json"]

/-- Model of a Go struct type as consumed by `generateColumnCollectionForType`:
its fields in declaration order, plus the table name computed by
`TableNameByType`. -/
structure StructType where
  fields : List StructField
  tableName : GoStr := []
deriving DecidableEq, Repr

/-- Functional model of `db.ColumnCollection` (column_collection.go): the
ordered column sequence plus the column prefix. The `lookup` map is
derivable from `columns` (each constructor rebuilds it from the columns),
and the memoized derived-subset fields are an optimization that does not
change the contents computed by the derived-subset accessors, so the
accessors are modelled as pure functions of the columns; the
aliasing/mutation behaviour of `Copy`/`Add`/`Remove` is modelled separately
by the heap model below. -/
structure ColumnCollection where
  columns : List Column := []
  columnPrefix : GoStr := []
deriving DecidableEq, Repr

/-- Model of `generateColumnCollectionForType` (column_collection.go lines
102-124): walk the fields in declaration order, skip anonymous fields,
parse each remaining field's tag, and record the declaration index and
table name on each produced column. -/
def generateColumnCollectionForType (t : StructType) : ColumnCollection :=
  { columns :=
      t.fields.enum.filterMap (fun p =>
        if p.2.anonymous then none
        else (NewColumnFromFieldTag p.2).map (fun col =>
          { col with index := p.1, tableName := t.tableName }))
    columnPrefix := [] }

/-- Model of `ColumnCollection.PrimaryKeys` (the filter loop, without the
memoization): the primary-key columns in collection order, keeping the
column prefix. -/
def ColumnCollection.PrimaryKeys (cc : ColumnCollection) : ColumnCollection :=
  { columns := cc.columns.filter (fun c => c.isPrimaryKey)
    columnPrefix := cc.columnPrefix }

/-- Model of `ColumnCollection.NotPrimaryKeys`. -/
def ColumnCollection.NotPrimaryKeys (cc : ColumnCollection) : ColumnCollection :=
  { columns := cc.columns.filter (fun c => !c.isPrimaryKey)
    columnPrefix := cc.columnPrefix }

/-- Model of `ColumnCollection.ReadOnly`. -/
def ColumnCollection.ReadOnly (cc : ColumnCollection) : ColumnCollection :=
  { columns := cc.columns.filter (fun c => c.isReadOnly)
    columnPrefix := cc.columnPrefix }

/-- Model of `ColumnCollection.NotReadOnly`. -/
def ColumnCollection.NotReadOnly (cc : ColumnCollection) : ColumnCollection :=
  { columns := cc.columns.filter (fun c => !c.isReadOnly)
    columnPrefix := cc.columnPrefix }

/-- Model of `ColumnCollection.Autos`. -/
def ColumnCollection.Autos (cc : ColumnCollection) : ColumnCollection :=
  { columns := cc.columns.filter (fun c => c.isAuto)
    columnPrefix := cc.columnPrefix }

/-- Model of `ColumnCollection.NotAutos`. -/
def ColumnCollection.NotAutos (cc : ColumnCollection) : ColumnCollection :=
  { columns := cc.columns.filter (fun c => !c.isAuto)
    columnPrefix := cc.columnPrefix }

/-- Model of `ColumnCollection.ConcatWith` (column_collection.go lines
396-407): the concatenated column list handed to
`newColumnCollectionFromColumns`, which sets no column prefix. -/
def ColumnCollection.ConcatWith (cc other : ColumnCollection) : ColumnCollection :=
  { columns := cc.columns ++ other.columns
    columnPrefix := [] }

/-- Model of `ColumnCollection.WriteColumns` (lines 182-189):
`cc.NotReadOnly().NotPrimaryKeys()`. -/
def ColumnCollection.WriteColumns (cc : ColumnCollection) : ColumnCollection :=
  cc.NotReadOnly.NotPrimaryKeys

/-- Model of `ColumnCollection.UpdateColumns` (lines 192-199):
`cc.NotReadOnly().NotPrimaryKeys().ConcatWith(cc.PrimaryKeys())`. -/
def ColumnCollection.UpdateColumns (cc : ColumnCollection) : ColumnCollection :=
  (cc.NotReadOnly.NotPrimaryKeys).ConcatWith cc.PrimaryKeys

/-- Model of the process-wide metadata cache `metaCache` (column_collection.go
lines 13-16): a map from cache-key strings to column collections, modelled
as an association list (a `nil` Go map and an empty map behave alike under
lookup, so the lazy `metaCache == nil` initialization needs no separate
state). -/
abbrev MetaCache := List (GoStr × ColumnCollection)

/-- Association-list lookup, modelling Go map indexing. -/
def mcLookup (cache : MetaCache) (key : GoStr) : Option ColumnCollection :=
  match cache with
  | [] => none
  | (k, v) :: rest => if k = key then some v else mcLookup rest key

/-- Model of `getCachedColumnCollectionFromType` (column_collection.go lines
84-99). The Go function runs entirely under `metaCacheLock`, so the whole
body is a single atomic state transition; the returned `Bool` records
whether this call built (and stored) a new collection. -/
def getCachedColumnCollectionFromType (identifier : GoStr) (t : StructType)
    (cache : MetaCache) : MetaCache × ColumnCollection × Bool :=
  match mcLookup cache identifier with
  | none =>
      let metadata := generateColumnCollectionForType t
      ((identifier, metadata) :: cache, metadata, true)
  | some cachedMeta => (cache, cachedMeta, false)

/-- Runs a sequence of cache resolutions, returning the final cache and,
for each call, its identifier together with the returned collection and
whether that call built a new collection. -/
def runCacheCalls (calls : List (GoStr × StructType)) (cache : MetaCache) :
    MetaCache × List (GoStr × ColumnCollection × Bool) :=
  match calls with
  | [] => (cache, [])
  | (id, t) :: rest =>
      let r := getCachedColumnCollectionFromType id t cache
      let rr := runCacheCalls rest r.1
      (rr.1, (id, r.2.1, r.2.2) :: rr.2)

/-- The number of calls in a trace that built a collection for `key`. -/
def buildCount (key : GoStr) (trace : List (GoStr × ColumnCollection × Bool)) : Nat :=
  (trace.filter (fun r => r.1 = key && r.2.2)).length

/-- Go types as seen through `reflect`: a pointer constructor over opaque
base types (identified by number), which is all `SetValue` inspects
(`Kind() == reflect.Ptr`, `Type.Elem()`, type equality). -/
inductive GoTy
  | base (n : Nat)
  | ptr (t : GoTy)
deriving DecidableEq, Repr

/-- Whether a type's reflect kind is `reflect.Ptr`. -/
def GoTy.isPtr : GoTy → Bool
  | .ptr _ => true
  | .base _ => false

/-- The pointee of a pointer type (`reflect.Type.Elem`); on a base type
this is unreachable in the modelled code paths. -/
def GoTy.elem : GoTy → GoTy
  | .ptr t => t
  | .base n => .base n

/-- A reflected Go value as inspected by `SetValue`: validity
(`reflect.Value.IsValid`), dynamic type, addressability
(`reflect.Value.CanAddr`), and — for the JSON branch's type assertion —
an optional `sql.NullString` payload `(Valid, String)` carried by the
dynamic value. -/
structure RValue where
  valid : Bool := true
  ty : GoTy := .base 0
  canAddr : Bool := false
  nullString : Option (Bool × GoStr) := none
deriving DecidableEq, Repr

/-- The target struct field as seen by `SetValue` after
`FieldByName`: its type and whether `reflect.Value.CanSet` holds. -/
structure RField where
  canSet : Bool
  ty : GoTy
deriving DecidableEq, Repr

/-- What `SetValue` wrote into the target field. -/
inductive FieldWrite
  | unchanged
  | setDirect (v : RValue)
  | setAddr (v : RValue)
  | setConverted (t : GoTy) (v : RValue)
  | setJSONDecoded (s : GoStr)
deriving DecidableEq, Repr

/-- The outcome of `SetValue`: success, a `MappingError` (an
`exception.New` value), or a Go runtime panic (raised by
`reflect.Value.Convert` when the conversion is not allowed). -/
inductive SetResult
  | ok
  | mappingError (msg : GoStr)
  | panicked
deriving DecidableEq, Repr

/-- Model of `Column.SetValue` (column collection sources, lines 478-532),
parameterized by the reflect-level type relations `assignable`
(`Type.AssignableTo`) and `convertible` (whether `Value.Convert` succeeds)
and by a JSON-decode oracle `jsonOk` (whether `json.Unmarshal` of the
payload succeeds). Two facts of Go's reflect package are built in: a value
obtained from `Value.Convert` is never addressable, so in the
pointer-field branch the `convertedValue.CanAddr()` guard always fails and
no assignment happens; and `Convert` panics when the conversion is not
allowed. The returned `FieldWrite` records the effect on the target field. -/
def setValue (assignable convertible : GoTy → GoTy → Bool) (jsonOk : GoStr → Bool)
    (isJSON : Bool) (fld : RField) (v : RValue) : SetResult × FieldWrite :=
  if !fld.canSet then
    (.mappingError (gs "hit a field we can't set: did you forget to pass the object as a reference?"),
     .unchanged)
  else if !v.valid then (.ok, .unchanged)
  else if isJSON then
    match v.nullString with
    | some (true, s) =>
        if s.length > 0 then
          if jsonOk s then (.ok, .setJSONDecoded s)
          else (.mappingError (gs "json unmarshal error"), .unchanged)
        else (.ok, .unchanged)
    | some (false, _) => (.ok, .unchanged)
    | none => (.ok, .unchanged)
  else if assignable v.ty fld.ty then
    if fld.ty.isPtr && v.canAddr then (.ok, .setAddr v) else (.ok, .setDirect v)
  else if fld.ty.isPtr then
    if v.canAddr then
      if fld.ty.elem = v.ty then (.ok, .setAddr v)
      else if convertible v.ty fld.ty.elem then (.ok, .unchanged)
      else (.panicked, .unchanged)
    else (.mappingError (gs "cannot take address of value"), .unchanged)
  else if convertible v.ty fld.ty then (.ok, .setConverted fld.ty v)
  else (.panicked, .unchanged)

/-- Model of a `*StatementCache` value: the pool handle (`*sql.DB`,
modelled as a numeric handle id) it was constructed over by
`newStatementCache(dbConn)`. -/
structure StatementCache where
  conn : Nat
deriving DecidableEq, Repr

/-- Model of `db.Connection` (connection.go), restricted to the state the
open/close lifecycle reads and writes: the lazily-opened pool handle
(`connection *sql.DB`, `none` = nil), the statement cache pointer, and
whether the config is set (`config != nil`). -/
structure Connection where
  connection : Option Nat := none
  statementCache : Option StatementCache := none
  configSet : Bool := true
deriving DecidableEq, Repr

/-- The environment one `openNewSQLConnection` attempt runs against: the
outcome of `sql.Open` (an error or a fresh handle id), whether the config
carries a nonempty schema, and the outcomes of the `SET search_path` exec
and of the `select 'ok!'` liveness probe. -/
structure OpenEnv where
  sqlOpenResult : Except GoStr Nat
  schemaNonEmpty : Bool := false
  schemaExecErr : Option GoStr := none
  pingErr : Option GoStr := none
deriving Repr

/-- Model of `Connection.openNewSQLConnection` (connection.go lines
149-181): fail when the config is unset; run `sql.Open`; on success
immediately replace `dbc.statementCache` with a cache bound to the new
handle; then run the optional schema exec and the liveness probe, each of
which returns early on error — after the statement cache was already
replaced. Returns the updated connection state and the result. -/
def openNewSQLConnection (env : OpenEnv) (dbc : Connection) :
    Connection × Except GoStr Nat :=
  if !dbc.configSet then (dbc, .error (gs "connection configuration is unset"))
  else
    match env.sqlOpenResult with
    | .error e => (dbc, .error e)
    | .ok dbConn =>
        let dbc1 := { dbc with statementCache := some ⟨dbConn⟩ }
        if env.schemaNonEmpty then
          match env.schemaExecErr with
          | some e => (dbc1, .error e)
          | none =>
              match env.pingErr with
              | some e => (dbc1, .error e)
              | none => (dbc1, .ok dbConn)
        else
          match env.pingErr with
          | some e => (dbc1, .error e)
          | none => (dbc1, .ok dbConn)

/-- Model of `Connection.Open` (connection.go lines 184-198). The method
runs the double-checked locking idiom; sequentially the two nil checks
collapse into one. On success the Go method returns `dbc` itself, so the
returned state is the observable result. The `Bool` records whether this
call established the pool handle (wrote `dbc.connection`). -/
def connOpen (env : OpenEnv) (dbc : Connection) :
    Connection × Except GoStr Unit × Bool :=
  if dbc.connection = none then
    match openNewSQLConnection env dbc with
    | (dbc1, .error e) => (dbc1, .error e, false)
    | (dbc1, .ok newConn) => ({ dbc1 with connection := some newConn }, .ok (), true)
  else (dbc, .ok (), false)

/-- Runs a sequence of `Open` calls, returning the final state and each
call's result and established flag. -/
def runOpens (envs : List OpenEnv) (dbc : Connection) :
    Connection × List (Except GoStr Unit × Bool) :=
  match envs with
  | [] => (dbc, [])
  | env :: rest =>
      let r := connOpen env dbc
      let rr := runOpens rest r.1
      (rr.1, (r.2.1, r.2.2) :: rr.2)

/-- The side effects `Connection.Close` performs, in order. -/
inductive CloseEv
  | closeCache (h : Nat)
  | closePool (h : Nat)
deriving DecidableEq, Repr

/-- The outcome of `Connection.Close`: a returned error value (`none` =
nil error), or a runtime panic. Calling `Close` on a nil `*sql.DB`
dereferences the nil receiver inside `database/sql` and panics. -/
inductive CloseOutcome
  | returned (err : Option GoStr)
  | nilPanic
deriving DecidableEq, Repr

/-- Model of `Connection.Close` (connection.go lines 91-100), parameterized
by the outcomes of the statement cache close and the pool close: close the
statement cache when non-nil; return its error, if any, before touching
the pool; otherwise close the pool handle — which panics when the handle
is nil. Returns the outcome and the ordered side-effect trace. -/
def connClose (cacheCloseErr poolCloseErr : Option GoStr) (dbc : Connection) :
    CloseOutcome × List CloseEv :=
  match dbc.statementCache with
  | some sc =>
      match cacheCloseErr with
      | some e => (.returned (some e), [.closeCache sc.conn])
      | none =>
          match dbc.connection with
          | some p => (.returned poolCloseErr, [.closeCache sc.conn, .closePool p])
          | none => (.nilPanic, [.closeCache sc.conn])
  | none =>
      match dbc.connection with
      | some p => (.returned poolCloseErr, [.closePool p])
      | none => (.nilPanic, [])

/-- A backing array for a Go `[]Column` slice: its cells up to capacity. -/
structure Backing where
  cells : List Column := []
deriving DecidableEq, Repr

instance : Inhabited Backing := ⟨{}⟩

/-- A Go slice header over the column heap: the backing array id (`none` =
the nil slice) and the length. Slice offsets are always zero in the
modelled code. -/
structure GoSlice where
  arr : Option Nat := none
  len : Nat := 0
deriving DecidableEq, Repr

/-- A `*Column` pointer: either into a cell of a backing array
(`&columns[i]`) or to an escaped local (the `&c` in `Add`). -/
inductive ColPtr
  | intoArr (a i : Nat)
  | lone (j : Nat)
deriving DecidableEq, Repr

/-- The heap for the aliasing model: the backing arrays of column slices
plus the lone escaped `Column` cells. -/
structure DbHeap where
  arrays : List Backing := []
  lones : List Column := []
deriving DecidableEq, Repr

/-- The backing array behind id `a`. -/
def DbHeap.backing (h : DbHeap) (a : Nat) : Backing := h.arrays.getD a default

/-- The columns a slice denotes: the first `len` cells of its backing. -/
def sliceView (h : DbHeap) (s : GoSlice) : List Column :=
  match s.arr with
  | none => []
  | some a => (h.backing a).cells.take s.len

/-- Dereference a `*Column`. -/
def readPtr (h : DbHeap) : ColPtr → Column
  | .intoArr a i => (h.backing a).cells.getD i default
  | .lone j => h.lones.getD j default

/-- Go `append(s, c)` on a `[]Column`: write in place when spare capacity
exists (visible through every other slice over the same backing array),
otherwise allocate a fresh backing array. The fresh array is modelled with
capacity exactly `len + 1`; Go over-allocates, but cells past the new
length are unobservable until a later in-place append writes them, which
this model performs identically. -/
def goAppend (h : DbHeap) (s : GoSlice) (c : Column) : DbHeap × GoSlice :=
  match s.arr with
  | none => ({ h with arrays := h.arrays ++ [⟨[c]⟩] }, ⟨some h.arrays.length, 1⟩)
  | some a =>
      let b := h.backing a
      if s.len < b.cells.length then
        ({ h with arrays := h.arrays.set a ⟨b.cells.set s.len c⟩ }, ⟨some a, s.len + 1⟩)
      else
        ({ h with arrays := h.arrays ++ [⟨b.cells.take s.len ++ [c]⟩] },
         ⟨some h.arrays.length, s.len + 1⟩)

/-- Go map assignment `m[k] = v` on the name lookup, as an association
list update. -/
def assocSet (m : List (GoStr × ColPtr)) (k : GoStr) (v : ColPtr) :
    List (GoStr × ColPtr) :=
  match m with
  | [] => [(k, v)]
  | kv :: rest => if kv.1 = k then (k, v) :: rest else kv :: assocSet rest k v

/-- Go map deletion `delete(m, k)`. -/
def assocErase (m : List (GoStr × ColPtr)) (k : GoStr) : List (GoStr × ColPtr) :=
  match m with
  | [] => []
  | kv :: rest => if kv.1 = k then rest else kv :: assocErase rest k

/-- The mutable `ColumnCollection` struct for the aliasing model: the
columns slice header, the lookup map (name to `*Column`), the column
prefix, and the eight memoized derived-subset pointers, modelled as
present/absent (`false` = the nil zero value), which is what the
memoized-subsets-reset property observes. -/
structure CCRef where
  columns : GoSlice := {}
  lookup : List (GoStr × ColPtr) := []
  columnPrefix : GoStr := []
  autosMemo : Bool := false
  notAutosMemo : Bool := false
  readOnlyMemo : Bool := false
  notReadOnlyMemo : Bool := false
  primaryKeysMemo : Bool := false
  notPrimaryKeysMemo : Bool := false
  writeColumnsMemo : Bool := false
  updateColumnsMemo : Bool := false
deriving DecidableEq, Repr

/-- Model of `ColumnCollection.Add` (column_collection.go lines 148-151):
append to the columns slice, then point the lookup at the address of the
parameter copy `c`, which escapes to its own heap cell (Go's `&c` is the
local parameter, not `&cc.columns[len]`). The memoized subsets of the
receiver are left as they are, exactly as in the source. -/
def ccAdd (h : DbHeap) (cc : CCRef) (c : Column) : DbHeap × CCRef :=
  let r := goAppend h cc.columns c
  ({ r.1 with lones := r.1.lones ++ [c] },
   { cc with
      columns := r.2
      lookup := assocSet cc.lookup c.columnName (.lone r.1.lones.length) })

/-- Model of `ColumnCollection.Remove` (lines 154-163): rebuild the column
slice without the named column — `newColumns` starts as the nil slice and
grows by `append`, so the result never aliases the old backing array (the
intermediate arrays the growth loop would allocate are garbage and
omitted) — then delete the name from the lookup. -/
def ccRemove (h : DbHeap) (cc : CCRef) (name : GoStr) : DbHeap × CCRef :=
  let kept := (sliceView h cc.columns).filter (fun c => decide (c.columnName ≠ name))
  let r : DbHeap × GoSlice :=
    if kept.isEmpty then (h, ⟨none, 0⟩)
    else ({ h with arrays := h.arrays ++ [⟨kept⟩] }, ⟨some h.arrays.length, kept.length⟩)
  (r.1, { cc with columns := r.2, lookup := assocErase cc.lookup name })

/-- Model of `ColumnCollection.CopyWithColumnPrefix` (lines 177-179), and
of `Copy` (lines 172-174) when applied to the collection's own prefix;
both call `newColumnCollectionWithPrefixFromColumns(prefix, cc.columns)`
(lines 55-64), which shares the columns slice header, rebuilds the lookup
to point at `&columns[i]` for each `i < len`, sets the given prefix, and
leaves the memoized subsets at their zero value (nil). -/
def ccCopyWithColumnPrefix (h : DbHeap) (cc : CCRef) (p : GoStr) : CCRef :=
  let view := sliceView h cc.columns
  { columns := cc.columns
    columnPrefix := p
    lookup := (List.range view.length).foldl
      (fun m i => assocSet m (view.getD i default).columnName
        (.intoArr (cc.columns.arr.getD 0) i)) [] }

/-- Model of `ColumnCollection.Copy`. -/
def ccCopy (h : DbHeap) (cc : CCRef) : CCRef :=
  ccCopyWithColumnPrefix h cc cc.columnPrefix

/-- A mutation applied to a collection: membership change (`Add`,
`Remove`) or a write to its column prefix field. -/
inductive CCOp
  | add (c : Column)
  | remove (name : GoStr)
  | setPrefix (p : GoStr)
deriving Repr

/-- Apply one mutation. -/
def applyOp (h : DbHeap) (cc : CCRef) : CCOp → DbHeap × CCRef
  | .add c => ccAdd h cc c
  | .remove n => ccRemove h cc n
  | .setPrefix p => (h, { cc with columnPrefix := p })

/-- Apply a sequence of mutations. -/
def applyOps (h : DbHeap) (cc : CCRef) : List CCOp → DbHeap × CCRef
  | [] => (h, cc)
  | op :: ops =>
      let r := applyOp h cc op
      applyOps r.1 r.2 ops

/-- Everything observable about a collection: its prefix, its column
sequence, and its lookup with each pointer dereferenced. -/
def observe (h : DbHeap) (cc : CCRef) :
    GoStr × List Column × List (GoStr × Column) :=
  (cc.columnPrefix, sliceView h cc.columns,
   cc.lookup.map (fun q => (q.1, readPtr h q.2)))

/-- Well-formedness of a collection in a heap (decidable): the slice
header is valid, a nil slice has length zero, and every lookup pointer
refers either to a cell of the collection's own backing array below its
length or to an existing lone cell — the shapes the constructors and
`Add` produce. -/
def ccWf (h : DbHeap) (cc : CCRef) : Bool :=
  (match cc.columns.arr with
   | some a =>
      decide (a < h.arrays.length) &&
      decide (cc.columns.len ≤ (h.backing a).cells.length)
   | none => decide (cc.columns.len = 0)) &&
  cc.lookup.all (fun q =>
    match q.2 with
    | ColPtr.intoArr a i =>
        decide (cc.columns.arr = some a) && decide (i < cc.columns.len)
    | ColPtr.lone j => decide (j < h.lones.length))

/-- The frame invariant carried while mutating a copy: relative to the
baseline heap `h0` and the protected region — the first `bound` cells of
the optional protected array `pa`, every other array existing in `h0`,
and the lone cells of `h0` — the current heap `h` agrees with `h0`, while
the mutating collection `cc` only ever holds its slice over `pa` with
length at least `bound`, or over an array allocated after the baseline. -/
structure FrameInv (h0 : DbHeap) (pa : Option Nat) (bound : Nat)
    (h : DbHeap) (cc : CCRef) : Prop where
  arrLen : h0.arrays.length ≤ h.arrays.length
  otherArrays : ∀ a, a < h0.arrays.length → pa ≠ some a →
    h.arrays.getD a default = h0.arrays.getD a default
  paCells : ∀ a, pa = some a →
    (h.backing a).cells.take bound = (h0.backing a).cells.take bound
  lonesPre : h0.lones <+: h.lones
  ccPaLen : ∀ a, cc.columns.arr = some a → pa = some a → bound ≤ cc.columns.len
  ccFresh : ∀ a, cc.columns.arr = some a → pa = some a ∨ h0.arrays.length ≤ a

/-- Whether a field write is the assignment of an explicitly converted
value (what the claim's conversion clause asserts happens). -/
def assignsConverted (w : FieldWrite) : Prop :=
  ∃ t v, w = FieldWrite.setConverted t v

/-- The `SetValue` contract exactly as the claim states it, over every
reflect-level type system and every field and source value on the
non-JSON path: an unsettable field fails with a MappingError; an invalid
source is a nil no-op; an assignable source is assigned (by address when
the field is a pointer and the source addressable); otherwise — whenever
the failing pointer/unaddressable case does not apply — an explicit
conversion is performed and the converted value assigned; and a pointer
field with an unaddressable source fails with a MappingError. -/
def setValueClaimAsStated : Prop :=
  ∀ (assignable convertible : GoTy → GoTy → Bool) (jsonOk : GoStr → Bool)
    (fld : RField) (v : RValue),
    (fld.canSet = false →
      ∃ m, (setValue assignable convertible jsonOk false fld v).1
        = SetResult.mappingError m) ∧
    (fld.canSet = true → v.valid = false →
      setValue assignable convertible jsonOk false fld v
        = (SetResult.ok, FieldWrite.unchanged)) ∧
    (fld.canSet = true → v.valid = true → assignable v.ty fld.ty = true →
      (setValue assignable convertible jsonOk false fld v).1 = SetResult.ok ∧
      (setValue assignable convertible jsonOk false fld v).2
        = (if fld.ty.isPtr && v.canAddr then FieldWrite.setAddr v
           else FieldWrite.setDirect v)) ∧
    (fld.canSet = true → v.valid = true → assignable v.ty fld.ty = false →
      (fld.ty.isPtr = true → v.canAddr = true) →
      assignsConverted (setValue assignable convertible jsonOk false fld v).2) ∧
    (fld.canSet = true → v.valid = true → assignable v.ty fld.ty = false →
      fld.ty.isPtr = true → v.canAddr = false →
      ∃ m, (setValue assignable convertible jsonOk false fld v).1
        = SetResult.mappingError m)

/-! ## Helper lemmas -/

theorem openNewSQLConnection_connection_eq (env : OpenEnv) (dbc : Connection) :
    ((openNewSQLConnection env dbc).1).connection = dbc.connection := by
  unfold openNewSQLConnection
  repeat' split
  all_goals rfl

theorem connOpen_of_some (env : OpenEnv) (dbc : Connection) (h : Nat)
    (hc : dbc.connection = some h) :
    connOpen env dbc = (dbc, Except.ok (), false) := by
  simp [connOpen, hc]

theorem runOpens_count_zero_of_some (envs : List OpenEnv) :
    ∀ (dbc : Connection) (h : Nat), dbc.connection = some h →
      (((runOpens envs dbc).2.filter (fun r => r.2)).length) = 0 := by
  induction envs with
  | nil => intro dbc h _; rfl
  | cons env rest ih =>
      intro dbc h hc
      simp only [runOpens, connOpen_of_some env dbc h hc]
      simpa using ih dbc h hc

theorem runOpens_count_le_one (envs : List OpenEnv) :
    ∀ dbc : Connection, (((runOpens envs dbc).2.filter (fun r => r.2)).length) ≤ 1 := by
  induction envs with
  | nil => intro dbc; simp [runOpens]
  | cons env rest ih =>
      intro dbc
      rcases hc : dbc.connection with _ | h
      · rcases hr : openNewSQLConnection env dbc with ⟨dbc1, res⟩
        rcases res with e | n
        · have hopen : connOpen env dbc = (dbc1, Except.error e, false) := by
            simp [connOpen, hc, hr]
          simp only [runOpens, hopen]
          simpa using ih dbc1
        · have hopen : connOpen env dbc
              = ({ dbc1 with connection := some n }, Except.ok (), true) := by
            simp [connOpen, hc, hr]
          simp only [runOpens, hopen]
          have h0 := runOpens_count_zero_of_some rest { dbc1 with connection := some n } n rfl
          simp [h0]
      · have h0 := runOpens_count_zero_of_some (env :: rest) dbc h hc
        omega

theorem mcLookup_hit (cache : MetaCache) (id : GoStr) (t : StructType)
    (v : ColumnCollection) (hv : mcLookup cache id = some v) :
    getCachedColumnCollectionFromType id t cache = (cache, v, false) := by
  simp [getCachedColumnCollectionFromType, hv]

theorem mcLookup_preserved (cache : MetaCache) (id : GoStr) (t : StructType)
    (key : GoStr) (v : ColumnCollection) (hv : mcLookup cache key = some v) :
    mcLookup (getCachedColumnCollectionFromType id t cache).1 key = some v := by
  unfold getCachedColumnCollectionFromType
  rcases hl : mcLookup cache id with _ | w
  · by_cases hik : id = key
    · subst hik; rw [hl] at hv; exact absurd hv (by simp)
    · simpa [mcLookup, hik] using hv
  · simpa using hv

theorem runCacheCalls_count_zero_of_present (calls : List (GoStr × StructType)) :
    ∀ (cache : MetaCache) (key : GoStr) (v : ColumnCollection),
      mcLookup cache key = some v →
      buildCount key (runCacheCalls calls cache).2 = 0 := by
  induction calls with
  | nil => intro cache key v _; rfl
  | cons c rest ih =>
      intro cache key v hv
      rcases c with ⟨id, t⟩
      rcases hl : mcLookup cache id with _ | w
      · have hik : id ≠ key := by
          intro he; subst he; rw [hl] at hv; exact absurd hv (by simp)
        have hpres : mcLookup ((id, generateColumnCollectionForType t) :: cache) key
            = some v := by simpa [mcLookup, hik] using hv
        simp only [runCacheCalls, getCachedColumnCollectionFromType, hl, buildCount]
        simp only [List.filter_cons]
        have : (decide (id = key) && true) = false := by simp [hik]
        simp only [this, if_neg Bool.false_ne_true]
        exact ih _ key v hpres
      · simp only [runCacheCalls, getCachedColumnCollectionFromType, hl, buildCount]
        simp only [List.filter_cons]
        simp only [Bool.and_false, if_neg Bool.false_ne_true]
        exact ih cache key v hv

theorem runCacheCalls_count_le_one (calls : List (GoStr × StructType)) :
    ∀ (cache : MetaCache) (key : GoStr),
      buildCount key (runCacheCalls calls cache).2 ≤ 1 := by
  induction calls with
  | nil => intro cache key; simp [runCacheCalls, buildCount]
  | cons c rest ih =>
      intro cache key
      rcases c with ⟨id, t⟩
      rcases hl : mcLookup cache id with _ | w
      · by_cases hik : id = key
        · subst hik
          have hzero := runCacheCalls_count_zero_of_present rest
            ((id, generateColumnCollectionForType t) :: cache) id
            (generateColumnCollectionForType t) (by simp [mcLookup])
          simp only [runCacheCalls, getCachedColumnCollectionFromType, hl, buildCount,
            List.filter_cons]
          simp only [buildCount] at hzero
          simp [hzero]
        · simp only [runCacheCalls, getCachedColumnCollectionFromType, hl, buildCount]
          simp only [List.filter_cons]
          have : (decide (id = key) && true) = false := by simp [hik]
          simp only [this, if_neg Bool.false_ne_true]
          exact ih _ key
      · simp only [runCacheCalls, getCachedColumnCollectionFromType, hl, buildCount]
        simp only [List.filter_cons]
        simp only [Bool.and_false, if_neg Bool.false_ne_true]
        exact ih cache key

theorem openNewSQLConnection_cases (env : OpenEnv) (dbc : Connection) (h : Nat)
    (hcfg : dbc.configSet = true) (hok : env.sqlOpenResult = Except.ok h) :
    (openNewSQLConnection env dbc).1 = { dbc with statementCache := some ⟨h⟩ } ∧
    ((openNewSQLConnection env dbc).2 = Except.ok h ∨
      ∃ e, (openNewSQLConnection env dbc).2 = Except.error e) := by
  unfold openNewSQLConnection
  rw [hcfg, hok]
  simp only [Bool.not_true]
  repeat' split
  all_goals simp_all

/-! ## Claim theorems -/

/-- C1: the metadata cache builds exactly one collection per key: a call
on a missing key builds the collection from the type and stores it under
the key; a call on a present key returns the stored collection with the
cache unchanged and no rebuild; and along any sequence of resolutions the
number of builds for any given key is at most one. -/
theorem C1_meta_cache_builds_once :
    (∀ (id : GoStr) (t : StructType) (cache : MetaCache),
      mcLookup cache id = none →
      getCachedColumnCollectionFromType id t cache
        = ((id, generateColumnCollectionForType t) :: cache,
           generateColumnCollectionForType t, true)) ∧
    (∀ (id : GoStr) (t : StructType) (cache : MetaCache) (v : ColumnCollection),
      mcLookup cache id = some v →
      getCachedColumnCollectionFromType id t cache = (cache, v, false)) ∧
    (∀ (calls : List (GoStr × StructType)) (cache : MetaCache) (key : GoStr),
      buildCount key (runCacheCalls calls cache).2 ≤ 1) := by
  refine ⟨?_, fun id t cache v hv => mcLookup_hit cache id t v hv,
    fun calls cache key => runCacheCalls_count_le_one calls cache key⟩
  intro id t cache hmiss
  simp [getCachedColumnCollectionFromType, hmiss]

/-- Witness for C1 at concrete inputs: a first call on the empty cache
builds and stores; a second call with the same key returns the stored
collection without rebuilding. -/
theorem C1_meta_cache_builds_once_witness :
    getCachedColumnCollectionFromType (gs "k") ⟨[], gs "tbl"⟩ []
      = ([(gs "k", generateColumnCollectionForType ⟨[], gs "tbl"⟩)],
         generateColumnCollectionForType ⟨[], gs "tbl"⟩, true) ∧
    getCachedColumnCollectionFromType (gs "k") ⟨[⟨gs "F", 0, gs "f", false⟩], gs "other"⟩
        [(gs "k", { columns := [], columnPrefix := [] })]
      = ([(gs "k", { columns := [], columnPrefix := [] })],
         { columns := [], columnPrefix := [] }, false) :=
  ⟨C1_meta_cache_builds_once.1 (gs "k") ⟨[], gs "tbl"⟩ [] rfl,
   C1_meta_cache_builds_once.2.1 (gs "k") ⟨[⟨gs "F", 0, gs "f", false⟩], gs "other"⟩
     [(gs "k", { columns := [], columnPrefix := [] })]
     { columns := [], columnPrefix := [] } (by decide)⟩

/-- C5: `WriteColumns` is exactly the columns that are neither read-only
nor primary keys, in collection order, and `UpdateColumns` is
`WriteColumns` followed by `PrimaryKeys`. -/
theorem C5_write_and_update_columns (cc : ColumnCollection) :
    cc.WriteColumns.columns
      = cc.columns.filter (fun c => !c.isReadOnly && !c.isPrimaryKey) ∧
    cc.UpdateColumns.columns
      = cc.WriteColumns.columns ++ cc.PrimaryKeys.columns := by
  constructor
  · show (cc.columns.filter _).filter _ = _
    rw [List.filter_filter]
    exact List.filter_congr (fun c _ => by rw [Bool.and_comm])
  · rfl

/-- C7: `Connection.Open` is idempotent — once the pool handle exists,
every further call performs no pool creation and returns the connection
unchanged with a nil error; and along any sequence of `Open` calls the
pool handle is established at most once. -/
theorem C7_open_idempotent :
    (∀ (env : OpenEnv) (dbc : Connection) (h : Nat),
      dbc.connection = some h → connOpen env dbc = (dbc, Except.ok (), false)) ∧
    (∀ (envs : List OpenEnv) (dbc : Connection),
      ((runOpens envs dbc).2.filter (fun r => r.2)).length ≤ 1) :=
  ⟨connOpen_of_some, fun envs dbc => runOpens_count_le_one envs dbc⟩

/-- Witness for C7: on an already-open connection, `Open` is a no-op. -/
theorem C7_open_idempotent_witness :
    connOpen { sqlOpenResult := Except.ok 7 }
        { connection := some 5, statementCache := some ⟨5⟩, configSet := true }
      = ({ connection := some 5, statementCache := some ⟨5⟩, configSet := true },
         Except.ok (), false) :=
  C7_open_idempotent.1 { sqlOpenResult := Except.ok 7 }
    { connection := some 5, statementCache := some ⟨5⟩, configSet := true } 5 rfl

/-- C8: `Connection.Close` closes the statement cache before the pool:
when the cache close fails, its error is returned at once and the pool
close is never attempted; when the cache close succeeds, the pool is
closed after the cache. -/
theorem C8_close_cache_before_pool :
    ∀ (dbc : Connection) (sc : StatementCache) (cacheErr poolErr : Option GoStr),
      dbc.statementCache = some sc →
      ((∀ e, cacheErr = some e →
          connClose cacheErr poolErr dbc
            = (CloseOutcome.returned (some e), [CloseEv.closeCache sc.conn])) ∧
       (∀ p, cacheErr = none → dbc.connection = some p →
          connClose cacheErr poolErr dbc
            = (CloseOutcome.returned poolErr,
               [CloseEv.closeCache sc.conn, CloseEv.closePool p]))) := by
  intro dbc sc cacheErr poolErr hsc
  constructor
  · intro e he
    subst he
    simp [connClose, hsc]
  · intro p hce hp
    subst hce
    simp [connClose, hsc, hp]

/-- Witness for C8: on an opened connection whose cache close fails, the
error is returned and only the cache close happened. -/
theorem C8_close_cache_before_pool_witness :
    connClose (some (gs "stmt cache close failed")) none
        { connection := some 3, statementCache := some ⟨3⟩, configSet := true }
      = (CloseOutcome.returned (some (gs "stmt cache close failed")),
         [CloseEv.closeCache 3]) :=
  (C8_close_cache_before_pool
      { connection := some 3, statementCache := some ⟨3⟩, configSet := true }
      ⟨3⟩ (some (gs "stmt cache close failed")) none rfl).1
    (gs "stmt cache close failed") rfl

/-- C9: when `Open` fails after the driver handle was created (schema
setup or liveness probe error), the pool handle field is left nil — so a
later `Open` retries — but the statement cache field has already been
replaced with a cache bound to the abandoned handle. -/
theorem C9_open_error_path_not_atomic :
    ∀ (env : OpenEnv) (dbc : Connection) (h : Nat),
      dbc.connection = none → dbc.configSet = true →
      env.sqlOpenResult = Except.ok h →
      (∃ e, (connOpen env dbc).2.1 = Except.error e) →
      (connOpen env dbc).1.connection = none ∧
      (connOpen env dbc).1.statementCache = some ⟨h⟩ := by
  intro env dbc h hc hcfg hok herr
  obtain ⟨hst, _⟩ := openNewSQLConnection_cases env dbc h hcfg hok
  rcases hr : openNewSQLConnection env dbc with ⟨dbc1, res⟩
  rw [hr] at hst
  simp only at hst
  rcases res with e' | n
  · have hco : connOpen env dbc = (dbc1, Except.error e', false) := by
      simp [connOpen, hc, hr]
    rw [hco, hst]
    exact ⟨hc, rfl⟩
  · have hco : connOpen env dbc
        = ({ dbc1 with connection := some n }, Except.ok (), true) := by
      simp [connOpen, hc, hr]
    rcases herr with ⟨e, he⟩
    rw [hco] at he
    simp at he

/-- Witness for C9: a liveness-probe failure on a fresh connection leaves
the pool handle nil while the statement cache points at the abandoned
handle. -/
theorem C9_open_error_path_not_atomic_witness :
    (connOpen { sqlOpenResult := Except.ok 4, pingErr := some (gs "down") }
        { connection := none, statementCache := none, configSet := true }).1.connection
      = none ∧
    (connOpen { sqlOpenResult := Except.ok 4, pingErr := some (gs "down") }
        { connection := none, statementCache := none, configSet := true }).1.statementCache
      = some ⟨4⟩ :=
  C9_open_error_path_not_atomic
    { sqlOpenResult := Except.ok 4, pingErr := some (gs "down") }
    { connection := none, statementCache := none, configSet := true } 4
    rfl rfl rfl ⟨gs "down", rfl⟩

/-- C10: closing a connection on which `Open` never succeeded (both the
statement cache and the pool handle are nil) skips the cache close and
then calls `Close` on the nil pool handle, a nil-pointer dereference:
the call panics instead of returning an error value. -/
theorem C10_close_unopened_panics :
    ∀ (cacheErr poolErr : Option GoStr) (dbc : Connection),
      dbc.statementCache = none → dbc.connection = none →
      connClose cacheErr poolErr dbc = (CloseOutcome.nilPanic, []) := by
  intro ce pe dbc hsc hc
  simp [connClose, hsc, hc]

/-- Witness for C10: closing a freshly constructed, never-opened
connection panics with no close side effects. -/
theorem C10_close_unopened_panics_witness :
    connClose none none { connection := none, statementCache := none, configSet := true }
      = (CloseOutcome.nilPanic, []) :=
  C10_close_unopened_panics none none
    { connection := none, statementCache := none, configSet := true } rfl rfl

theorem parse_none_of_dash (f : StructField) (h : f.dbTag = gs "-") :
    NewColumnFromFieldTag f = none := by
  unfold NewColumnFromFieldTag
  rw [if_pos h]

theorem parse_some_of_ne (f : StructField) (h : f.dbTag ≠ gs "-") :
    ∃ c, NewColumnFromFieldTag f = some c ∧ c.fieldName = f.name := by
  unfold NewColumnFromFieldTag
  rw [if_neg h]
  dsimp only
  split
  · exact ⟨_, rfl, rfl⟩
  · split <;> exact ⟨_, rfl, rfl⟩

theorem genCols_structure (tbl : GoStr) (fields : List StructField) :
    ∀ n : Nat,
      (List.enumFrom n fields).filterMap (fun p =>
          if p.2.anonymous then none
          else (NewColumnFromFieldTag p.2).map (fun col =>
            { col with index := p.1, tableName := tbl }))
        = ((List.enumFrom n fields).filter
            (fun p => !p.2.anonymous && decide (p.2.dbTag ≠ gs "-"))).map
            (fun p => { ((NewColumnFromFieldTag p.2).getD default) with
                        index := p.1, tableName := tbl }) := by
  induction fields with
  | nil => intro n; rfl
  | cons f fs ih =>
      intro n
      simp only [List.enumFrom, List.filterMap_cons, List.filter_cons]
      by_cases ha : f.anonymous = true
      · simp [ha, ih (n + 1)]
      · by_cases hd : f.dbTag = gs "-"
        · simp [ha, hd, parse_none_of_dash f hd, ih (n + 1)]
        · obtain ⟨c, hc, _⟩ := parse_some_of_ne f hd
          simp [ha, hd, hc, ih (n + 1)]

theorem enumFrom_filter_snd (q : StructField → Bool) (l : List StructField) :
    ∀ n : Nat,
      ((List.enumFrom n l).filter (fun p => q p.2)).map Prod.snd = l.filter q := by
  induction l with
  | nil => intro n; rfl
  | cons f fs ih =>
      intro n
      simp only [List.enumFrom, List.filter_cons]
      by_cases h : q f <;> simp [h, ih (n + 1)]

/-- C4: for every type, the generated collection has exactly one column
per declared, non-anonymous field whose descriptor is not `-`, in
declaration order (the column field names are the kept field names in
order), and every column points back (via its `Index`) to a declared
field that is neither anonymous nor `-`-excluded. -/
theorem C4_collection_contents (t : StructType) :
    (generateColumnCollectionForType t).columns.length
      = (t.fields.filter (fun f => !f.anonymous && decide (f.dbTag ≠ gs "-"))).length ∧
    (generateColumnCollectionForType t).columns.map Column.fieldName
      = (t.fields.filter (fun f => !f.anonymous && decide (f.dbTag ≠ gs "-"))).map
          StructField.name ∧
    ∀ c ∈ (generateColumnCollectionForType t).columns,
      ∃ f, t.fields[c.index]? = some f ∧ f.anonymous = false ∧
        f.dbTag ≠ gs "-" ∧ c.fieldName = f.name := by
  have hgen : (generateColumnCollectionForType t).columns
      = ((List.enumFrom 0 t.fields).filter
          (fun p => !p.2.anonymous && decide (p.2.dbTag ≠ gs "-"))).map
          (fun p => { ((NewColumnFromFieldTag p.2).getD default) with
                      index := p.1, tableName := t.tableName }) :=
    genCols_structure t.tableName t.fields 0
  have hname : ∀ p : Nat × StructField, p.2.dbTag ≠ gs "-" →
      ({ ((NewColumnFromFieldTag p.2).getD default) with
         index := p.1, tableName := t.tableName } : Column).fieldName = p.2.name := by
    intro p hp
    obtain ⟨c, hc, hcn⟩ := parse_some_of_ne p.2 hp
    simp [hc, hcn]
  refine ⟨?_, ?_, ?_⟩
  · rw [hgen, List.length_map, ← enumFrom_filter_snd
      (fun f => !f.anonymous && decide (f.dbTag ≠ gs "-")) t.fields 0, List.length_map]
  · rw [hgen, List.map_map, ← enumFrom_filter_snd
      (fun f => !f.anonymous && decide (f.dbTag ≠ gs "-")) t.fields 0, List.map_map]
    refine List.map_congr_left ?_
    intro p hp
    have hcond := (List.mem_filter.1 hp).2
    have hd : p.2.dbTag ≠ gs "-" := by
      rcases (Bool.and_eq_true _ _).mp hcond with ⟨_, h2⟩
      exact of_decide_eq_true h2
    simpa using hname p hd
  · intro c hc
    rw [hgen] at hc
    obtain ⟨p, hp, rfl⟩ := List.mem_map.1 hc
    have hmem := (List.mem_filter.1 hp).1
    have hcond := (List.mem_filter.1 hp).2
    rcases (Bool.and_eq_true _ _).mp hcond with ⟨h1, h2⟩
    have hd : p.2.dbTag ≠ gs "-" := of_decide_eq_true h2
    refine ⟨p.2, ?_, by simpa using h1, hd, hname p hd⟩
    exact List.mem_enum_iff_getElem?.mp hmem

theorem pat_before_append_cons {pat : GoStr} {c : Char} (hc : c ∉ pat) :
    ∀ (xs ys : GoStr), pat <+: xs ++ c :: ys → pat <+: xs := by
  induction pat with
  | nil => intro xs ys _; exact List.nil_prefix
  | cons p pt ih =>
      intro xs ys h
      cases xs with
      | nil =>
          obtain ⟨t, ht⟩ := h
          simp only [List.nil_append, List.cons_append] at ht
          have : p = c := (List.cons.injEq _ _ _ _).mp ht |>.1
          exact absurd (this ▸ List.mem_cons_self p pt) hc
      | cons x xt =>
          obtain ⟨t, ht⟩ := h
          simp only [List.cons_append] at ht
          obtain ⟨hpx, htl⟩ := (List.cons.injEq _ _ _ _).mp ht
          have hct : c ∉ pt := fun hm => hc (List.mem_cons_of_mem _ hm)
          have hpre : pt <+: xt := ih hct xt ys ⟨t, htl⟩
          exact hpx ▸ (List.prefix_cons_inj x).mpr hpre

theorem pat_within_append_cons {pat : GoStr} {c : Char} (hc : c ∉ pat) :
    ∀ (xs ys : GoStr), pat <:+: xs ++ c :: ys → pat <:+: xs ∨ pat <:+: ys := by
  intro xs
  induction xs with
  | nil =>
      intro ys h
      rcases List.infix_cons_iff.mp h with hpre | hrest
      · cases pat with
        | nil => exact Or.inl (List.infix_refl _)
        | cons p pt =>
            obtain ⟨t, ht⟩ := hpre
            simp only [List.cons_append] at ht
            have : p = c := (List.cons.injEq _ _ _ _).mp ht |>.1
            exact absurd (this ▸ List.mem_cons_self p pt) hc
      · exact Or.inr hrest
  | cons x xt ih =>
      intro ys h
      rcases List.infix_cons_iff.mp h with hpre | hrest
      · exact Or.inl ((pat_before_append_cons hc (x :: xt) ys hpre).isInfix)
      · rcases ih ys hrest with h1 | h2
        · exact Or.inl (List.infix_cons h1)
        · exact Or.inr h2

theorem goJoin_single (c : Char) (x : GoStr) : goJoin c [x] = x := by
  simp [goJoin, List.intercalate]

theorem goJoin_cons_cons (c : Char) (x y : GoStr) (t : List GoStr) :
    goJoin c (x :: y :: t) = x ++ c :: goJoin c (y :: t) := by
  simp [goJoin, List.intercalate, List.intersperse]

theorem mem_within_goJoin (c : Char) :
    ∀ (flags : List GoStr) (fl : GoStr), fl ∈ flags → fl <:+: goJoin c flags := by
  intro flags
  induction flags with
  | nil => intro fl h; cases h
  | cons x t ih =>
      intro fl hm
      cases t with
      | nil =>
          rcases List.mem_singleton.mp hm with rfl
          rw [goJoin_single]
      | cons y t' =>
          rw [goJoin_cons_cons]
          rcases List.mem_cons.mp hm with rfl | hm'
          · exact ⟨[], c :: goJoin c (y :: t'), by simp⟩
          · obtain ⟨s, u, hsu⟩ := ih fl hm'
            refine ⟨x ++ c :: s, u, ?_⟩
            have h2 := congrArg (fun z => x ++ (c :: z)) hsu
            simpa [List.append_assoc] using h2

theorem pat_within_goJoin_iff {pat : GoStr} {c : Char} (hcp : c ∉ pat) :
    ∀ (flags : List GoStr), flags ≠ [] → (∀ fl ∈ flags, c ∉ fl) →
      (pat <:+: goJoin c flags ↔ ∃ fl ∈ flags, pat <:+: fl) := by
  intro flags
  induction flags with
  | nil => intro h; exact absurd rfl h
  | cons x t ih =>
      intro _ hfl
      cases t with
      | nil => rw [goJoin_single]; simp
      | cons y t' =>
          constructor
          · intro h
            rw [goJoin_cons_cons] at h
            rcases pat_within_append_cons hcp x (goJoin c (y :: t')) h with h1 | h2
            · exact ⟨x, List.mem_cons_self x _, h1⟩
            · have hne : (y :: t') ≠ ([] : List GoStr) := by simp
              have hsub : ∀ fl ∈ y :: t', c ∉ fl := fun fl hm =>
                hfl fl (List.mem_cons_of_mem x hm)
              obtain ⟨fl, hm, hw⟩ := (ih hne hsub).mp h2
              exact ⟨fl, List.mem_cons_of_mem x hm, hw⟩
          · rintro ⟨fl, hm, hw⟩
            exact hw.trans (mem_within_goJoin c (x :: y :: t') fl hm)

theorem goToLower_append (a b : GoStr) :
    goToLower (a ++ b) = goToLower a ++ goToLower b := by
  simp [goToLower]

theorem goToLower_comma_cons (s : GoStr) :
    goToLower (',' :: s) = ',' :: goToLower s := by
  have h : Char.toLower ',' = ',' := by decide
  simp [goToLower, h]

theorem goToLower_goJoin_comma (ls : List GoStr) :
    goToLower (goJoin ',' ls) = goJoin ',' (ls.map goToLower) := by
  induction ls with
  | nil => rfl
  | cons x t ih =>
      cases t with
      | nil => rw [List.map_cons, List.map_nil, goJoin_single, goJoin_single]
      | cons y t' =>
          rw [goJoin_cons_cons, goToLower_append, goToLower_comma_cons, ih]
          simp [goJoin_cons_cons]

theorem sixFlagWords_no_comma : ∀ w ∈ sixFlagWords, ',' ∉ w := by decide

theorem sixFlagWords_pat_iff :
    ∀ w ∈ sixFlagWords,
      ((gs "pk" <:+: w) ↔ w = gs "pk") ∧
      ((gs "auto" <:+: w) ↔ w = gs "auto") ∧
      ((gs "serial" <:+: w) ↔ w = gs "serial") ∧
      ((gs "readonly" <:+: w) ↔ w = gs "readonly") ∧
      ((gs "nullable" <:+: w) ↔ w = gs "nullable") ∧
      ((gs "json" <:+: w) ↔ w = gs "json") := by decide

theorem goSplit_build (colname : GoStr) (flags : List GoStr) (hc : ',' ∉ colname)
    (hf : ∀ fl ∈ flags, ',' ∉ fl) (hne : flags ≠ []) :
    goSplit ',' (colname ++ ',' :: goJoin ',' flags) = colname :: flags := by
  show (colname ++ ',' :: ([','].intercalate flags)).splitOn ',' = colname :: flags
  have h1 : ∀ x ∈ colname, ¬((x == ',') = true) := by
    intro x hx
    simp only [beq_iff_eq]
    rintro rfl
    exact hc hx
  show (colname ++ ',' :: ([','].intercalate flags)).splitOnP (· == ',') = colname :: flags
  rw [List.splitOnP_first (fun x => x == ',') colname h1 ',' (by simp)]
  have h2 : (([','].intercalate flags).splitOn ',') = flags :=
    List.splitOn_intercalate flags ',' hf hne
  exact congrArg (colname :: ·) h2

theorem goStartsWith_comma_of_cons (t : GoStr) :
    goStartsWith (',' :: t) (gs ",") = true := by
  simp [goStartsWith, gs]

theorem goStartsWith_comma_of_ne {x : Char} (hx : x ≠ ',') (t : GoStr) :
    goStartsWith (x :: t) (gs ",") = false := by
  simp only [goStartsWith, gs, decide_eq_false_iff_not]
  intro h
  obtain ⟨u, hu⟩ := h
  exact hx ((List.cons.injEq _ _ _ _).mp hu).1.symm

theorem sixFlagWords_within_iff :
    ∀ pat ∈ sixFlagWords, ∀ w ∈ sixFlagWords, ((pat <:+: w) ↔ w = pat) := by decide

theorem flag_word_iff (flags : List GoStr) (hne : flags ≠ [])
    (hsix : ∀ fl ∈ flags, goToLower fl ∈ sixFlagWords)
    (pat : GoStr) (hpat : pat ∈ sixFlagWords) :
    (goContains (goJoin ',' (flags.map goToLower)) pat = true
      ↔ ∃ fl ∈ flags, goToLower fl = pat) := by
  have hcp : ',' ∉ pat := sixFlagWords_no_comma pat hpat
  have hmapne : flags.map goToLower ≠ [] := by
    cases flags with
    | nil => exact absurd rfl hne
    | cons a t => simp
  have hmapc : ∀ w ∈ flags.map goToLower, ',' ∉ w := by
    intro w hw
    obtain ⟨fl, hm, rfl⟩ := List.mem_map.1 hw
    exact sixFlagWords_no_comma _ (hsix fl hm)
  rw [goContains, decide_eq_true_eq, pat_within_goJoin_iff hcp _ hmapne hmapc]
  constructor
  · rintro ⟨w, hw, hsub⟩
    obtain ⟨fl, hm, rfl⟩ := List.mem_map.1 hw
    exact ⟨fl, hm, (sixFlagWords_within_iff pat hpat _ (hsix fl hm)).mp hsub⟩
  · rintro ⟨fl, hm, he⟩
    exact ⟨goToLower fl, List.mem_map_of_mem _ hm, he ▸ List.infix_refl pat⟩

/-- C2: the tag parser implements the descriptor grammar
`name,flag[,flag...]`: leading text before the first comma overrides the
inferred lower-cased field name; a leading comma keeps the inferred name;
and when the flag part is a comma-separated list of the flag words (in
any order, any case), each flag boolean is set exactly when its word is
present. In particular `primary_key_column,pk,serial` yields column name
`primary_key_column` with the primary-key and auto flags set and the
read-only flag clear, and a field named `InferredWithFlags` tagged
`,readonly` yields column name `inferredwithflags` with only the
read-only flag set. -/
theorem C2_tag_grammar :
    (∀ field : StructField,
      field.dbTag ≠ gs "-" → field.dbTag ≠ gs "" →
      goStartsWith field.dbTag (gs ",") = false →
      ∃ col, NewColumnFromFieldTag field = some col ∧
        col.columnName = (goSplit ',' field.dbTag).headD (gs "")) ∧
    (∀ field : StructField,
      goStartsWith field.dbTag (gs ",") = true →
      ∃ col, NewColumnFromFieldTag field = some col ∧
        col.columnName = goToLower field.name) ∧
    (∀ (field : StructField) (colname : GoStr) (flags : List GoStr),
      field.dbTag = colname ++ ',' :: goJoin ',' flags →
      ',' ∉ colname → flags ≠ [] →
      (∀ fl ∈ flags, goToLower fl ∈ sixFlagWords) →
      ∃ col, NewColumnFromFieldTag field = some col ∧
        col.columnName = (if colname = [] then goToLower field.name else colname) ∧
        (col.isPrimaryKey = true ↔ ∃ fl ∈ flags, goToLower fl = gs "pk") ∧
        (col.isAuto = true ↔
          ∃ fl ∈ flags, goToLower fl = gs "auto" ∨ goToLower fl = gs "serial") ∧
        (col.isReadOnly = true ↔ ∃ fl ∈ flags, goToLower fl = gs "readonly") ∧
        (col.isNullable = true ↔ ∃ fl ∈ flags, goToLower fl = gs "nullable") ∧
        (col.isJSON = true ↔ ∃ fl ∈ flags, goToLower fl = gs "json")) ∧
    ((NewColumnFromFieldTag
        { name := gs "PrimaryKeyCol", fieldType := 0,
          dbTag := gs "primary_key_column,pk,serial", anonymous := false }).map
      (fun c => (c.columnName, c.isPrimaryKey, c.isAuto, c.isReadOnly))
      = some (gs "primary_key_column", true, true, false)) ∧
    ((NewColumnFromFieldTag
        { name := gs "InferredWithFlags", fieldType := 0,
          dbTag := gs ",readonly", anonymous := false }).map
      (fun c => (c.columnName, c.isPrimaryKey, c.isAuto, c.isReadOnly,
                 c.isNullable, c.isJSON))
      = some (gs "inferredwithflags", false, false, true, false, false)) := by
  refine ⟨?_, ?_, ?_, by decide, by decide⟩
  · intro field h1 h2 h3
    unfold NewColumnFromFieldTag
    rw [if_neg h1, if_neg h2]
    refine ⟨_, rfl, ?_⟩
    simp [h3]
  · intro field h3
    obtain ⟨t, ht⟩ := of_decide_eq_true h3
    have hdash : field.dbTag ≠ gs "-" := by
      rw [← ht]
      intro h
      have h2 : ',' :: t = '-' :: [] := h
      have h3 := ((List.cons.injEq _ _ _ _).mp h2).1
      exact absurd h3 (by decide)
    have hempty : field.dbTag ≠ gs "" := by
      rw [← ht]
      intro h
      exact List.cons_ne_nil ',' t (h : ',' :: t = [])
    unfold NewColumnFromFieldTag
    rw [if_neg hdash, if_neg hempty]
    refine ⟨_, rfl, ?_⟩
    simp [h3]
  · intro field colname flags heq hc hne hsix
    have hflc : ∀ fl ∈ flags, ',' ∉ fl := by
      intro fl hm hmem
      have h7 := sixFlagWords_no_comma _ (hsix fl hm)
      have : Char.toLower ',' ∈ goToLower fl := List.mem_map_of_mem _ hmem
      rw [show Char.toLower ',' = ',' from by decide] at this
      exact h7 this
    have hmemdb : ',' ∈ field.dbTag := by
      rw [heq]
      exact List.mem_append_right _ (List.mem_cons_self _ _)
    have hdash : field.dbTag ≠ gs "-" := by
      intro h
      rw [h] at hmemdb
      exact absurd hmemdb (by decide)
    have hempty : field.dbTag ≠ gs "" := by
      intro h
      rw [h] at hmemdb
      exact absurd hmemdb (by decide)
    have hsplit : goSplit ',' field.dbTag = colname :: flags := by
      rw [heq]
      exact goSplit_build colname flags hc hflc hne
    have hargs : goToLower (goJoin ',' ((goSplit ',' field.dbTag).drop 1))
        = goJoin ',' (flags.map goToLower) := by
      rw [hsplit]
      exact goToLower_goJoin_comma flags
    unfold NewColumnFromFieldTag
    rw [if_neg hdash, if_neg hempty]
    refine ⟨_, rfl, ?_, ?_, ?_, ?_, ?_, ?_⟩
    · cases colname with
      | nil =>
          have hstart : goStartsWith field.dbTag (gs ",") = true := by
            rw [heq]
            exact goStartsWith_comma_of_cons _
          simp [hstart]
      | cons a as =>
          have ha : a ≠ ',' := fun h => hc (h ▸ List.mem_cons_self a as)
          have hstart : goStartsWith field.dbTag (gs ",") = false := by
            rw [heq]
            exact goStartsWith_comma_of_ne (fun h => ha h) _
          simp [hstart, hsplit]
    · show goContains (goToLower (goJoin ',' ((goSplit ',' field.dbTag).drop 1))) (gs "pk")
          = true ↔ _
      rw [hargs]
      exact flag_word_iff flags hne hsix (gs "pk") (by decide)
    · show (goContains (goToLower (goJoin ',' ((goSplit ',' field.dbTag).drop 1))) (gs "serial")
          || goContains (goToLower (goJoin ',' ((goSplit ',' field.dbTag).drop 1))) (gs "auto"))
          = true ↔ _
      rw [hargs, Bool.or_eq_true,
        flag_word_iff flags hne hsix (gs "serial") (by decide),
        flag_word_iff flags hne hsix (gs "auto") (by decide)]
      constructor
      · rintro (⟨fl, hm, he⟩ | ⟨fl, hm, he⟩)
        · exact ⟨fl, hm, Or.inr he⟩
        · exact ⟨fl, hm, Or.inl he⟩
      · rintro ⟨fl, hm, he | he⟩
        · exact Or.inr ⟨fl, hm, he⟩
        · exact Or.inl ⟨fl, hm, he⟩
    · show goContains (goToLower (goJoin ',' ((goSplit ',' field.dbTag).drop 1))) (gs "readonly")
          = true ↔ _
      rw [hargs]
      exact flag_word_iff flags hne hsix (gs "readonly") (by decide)
    · show goContains (goToLower (goJoin ',' ((goSplit ',' field.dbTag).drop 1))) (gs "nullable")
          = true ↔ _
      rw [hargs]
      exact flag_word_iff flags hne hsix (gs "nullable") (by decide)
    · show goContains (goToLower (goJoin ',' ((goSplit ',' field.dbTag).drop 1))) (gs "json")
          = true ↔ _
      rw [hargs]
      exact flag_word_iff flags hne hsix (gs "json") (by decide)

/-- Witness for C2: the flag-grammar clause applied to the concrete tag
`col,PK,Serial` (mixed case, reordered flags). -/
theorem C2_tag_grammar_witness :
    ∃ col, NewColumnFromFieldTag
        { name := gs "X", fieldType := 0, dbTag := gs "col,PK,Serial",
          anonymous := false } = some col ∧
      col.columnName
        = (if (gs "col") = ([] : GoStr) then goToLower (gs "X") else gs "col") ∧
      (col.isPrimaryKey = true ↔
        ∃ fl ∈ [gs "PK", gs "Serial"], goToLower fl = gs "pk") ∧
      (col.isAuto = true ↔
        ∃ fl ∈ [gs "PK", gs "Serial"],
          goToLower fl = gs "auto" ∨ goToLower fl = gs "serial") ∧
      (col.isReadOnly = true ↔
        ∃ fl ∈ [gs "PK", gs "Serial"], goToLower fl = gs "readonly") ∧
      (col.isNullable = true ↔
        ∃ fl ∈ [gs "PK", gs "Serial"], goToLower fl = gs "nullable") ∧
      (col.isJSON = true ↔
        ∃ fl ∈ [gs "PK", gs "Serial"], goToLower fl = gs "json") :=
  C2_tag_grammar.2.2.1
    { name := gs "X", fieldType := 0, dbTag := gs "col,PK,Serial", anonymous := false }
    (gs "col") [gs "PK", gs "Serial"] (by decide) (by decide) (by decide) (by decide)

/-- C3 (counterexample): the claim's conversion clause fails. At a pointer
field with an addressable source of a different (convertible) type, the
code computes the conversion but the converted value is never addressable,
so the `CanAddr` guard fails, nothing is assigned, and nil is returned —
the claim asserts the converted value is assigned. -/
theorem C3_setvalue_claim_counterexample : ¬ setValueClaimAsStated := by
  intro h
  have h4 := (h (fun a b => decide (a = b)) (fun _ _ => true) (fun _ => true)
      ⟨true, GoTy.ptr (GoTy.base 0)⟩ ⟨true, GoTy.base 1, true, none⟩).2.2.2.1
  have h5 := h4 rfl rfl (by decide) (fun _ => rfl)
  rw [show (setValue (fun a b => decide (a = b)) (fun _ _ => true) (fun _ => true) false
      ⟨true, GoTy.ptr (GoTy.base 0)⟩ ⟨true, GoTy.base 1, true, none⟩).2
      = FieldWrite.unchanged from by decide] at h5
  obtain ⟨t, w, hv⟩ := h5
  exact FieldWrite.noConfusion hv

/-- C3 (amended): the `SetValue` contract as the code implements it. The
only change forced by the counterexample is in the not-directly-assignable
cases: a non-pointer field gets the explicitly converted value assigned;
a pointer field with an addressable source gets the source's address
assigned when the pointee type equals the source type, and otherwise the
conversion result cannot be addressed, so no assignment is performed and
nil is returned. The unsettable-field, invalid-source, assignable, and
pointer-with-unaddressable-source clauses are unchanged. -/
theorem C3_setvalue_contract :
    ∀ (assignable convertible : GoTy → GoTy → Bool) (jsonOk : GoStr → Bool)
      (fld : RField) (v : RValue),
      (fld.canSet = false →
        (∃ m, (setValue assignable convertible jsonOk false fld v).1
          = SetResult.mappingError m) ∧
        (setValue assignable convertible jsonOk false fld v).2
          = FieldWrite.unchanged) ∧
      (fld.canSet = true → v.valid = false →
        setValue assignable convertible jsonOk false fld v
          = (SetResult.ok, FieldWrite.unchanged)) ∧
      (fld.canSet = true → v.valid = true → assignable v.ty fld.ty = true →
        setValue assignable convertible jsonOk false fld v
          = (SetResult.ok,
             if fld.ty.isPtr && v.canAddr then FieldWrite.setAddr v
             else FieldWrite.setDirect v)) ∧
      (fld.canSet = true → v.valid = true → assignable v.ty fld.ty = false →
        fld.ty.isPtr = false → convertible v.ty fld.ty = true →
        setValue assignable convertible jsonOk false fld v
          = (SetResult.ok, FieldWrite.setConverted fld.ty v)) ∧
      (fld.canSet = true → v.valid = true → assignable v.ty fld.ty = false →
        fld.ty.isPtr = true → v.canAddr = false →
        setValue assignable convertible jsonOk false fld v
          = (SetResult.mappingError (gs "cannot take address of value"),
             FieldWrite.unchanged)) ∧
      (fld.canSet = true → v.valid = true → assignable v.ty fld.ty = false →
        fld.ty.isPtr = true → v.canAddr = true → fld.ty.elem = v.ty →
        setValue assignable convertible jsonOk false fld v
          = (SetResult.ok, FieldWrite.setAddr v)) ∧
      (fld.canSet = true → v.valid = true → assignable v.ty fld.ty = false →
        fld.ty.isPtr = true → v.canAddr = true → fld.ty.elem ≠ v.ty →
        convertible v.ty fld.ty.elem = true →
        setValue assignable convertible jsonOk false fld v
          = (SetResult.ok, FieldWrite.unchanged)) := by
  intro assignable convertible jsonOk fld v
  refine ⟨?_, ?_, ?_, ?_, ?_, ?_, ?_⟩
  · intro hcs
    constructor
    · refine ⟨gs "hit a field we can't set: did you forget to pass the object as a reference?", ?_⟩
      simp [setValue, hcs]
    · simp [setValue, hcs]
  · intro hcs hval
    simp [setValue, hcs, hval]
  · intro hcs hval hasn
    simp only [setValue, hcs, hval, hasn, Bool.not_true, Bool.false_eq_true, if_false,
      if_true]
    split <;> rfl
  · intro hcs hval hasn hptr hconv
    simp [setValue, hcs, hval, hasn, hptr, hconv]
  · intro hcs hval hasn hptr haddr
    simp [setValue, hcs, hval, hasn, hptr, haddr]
  · intro hcs hval hasn hptr haddr helem
    simp [setValue, hcs, hval, hasn, hptr, haddr, helem]
  · intro hcs hval hasn hptr haddr helem hconv
    simp [setValue, hcs, hval, hasn, hptr, haddr, helem, hconv]

/-- Witness for the amended C3 contract: the skipped-assignment case at a
concrete pointer field and addressable source of a different type. -/
theorem C3_setvalue_contract_witness :
    setValue (fun a b => decide (a = b)) (fun _ _ => true) (fun _ => true) false
        ⟨true, GoTy.ptr (GoTy.base 0)⟩ ⟨true, GoTy.base 1, true, none⟩
      = (SetResult.ok, FieldWrite.unchanged) :=
  (C3_setvalue_contract (fun a b => decide (a = b)) (fun _ _ => true) (fun _ => true)
      ⟨true, GoTy.ptr (GoTy.base 0)⟩ ⟨true, GoTy.base 1, true, none⟩).2.2.2.2.2.2
    rfl rfl (by decide) rfl rfl (by decide) rfl

theorem take_set_of_le {α : Type} (l : List α) :
    ∀ (i b : Nat) (c : α), b ≤ i → (l.set i c).take b = l.take b := by
  induction l with
  | nil => intro i b c _; rfl
  | cons x xs ih =>
      intro i b c hbi
      cases i with
      | zero =>
          have hb : b = 0 := Nat.le_zero.mp hbi
          subst hb
          rfl
      | succ i' =>
          cases b with
          | zero => rfl
          | succ b' =>
              show x :: (xs.set i' c).take b' = x :: xs.take b'
              rw [ih i' b' c (Nat.succ_le_succ_iff.mp hbi)]

theorem getD_take {α : Type} [Inhabited α] (l : List α) :
    ∀ (b i : Nat), i < b → (l.take b).getD i default = l.getD i default := by
  induction l with
  | nil => intro b i _; simp [List.getD]
  | cons x xs ih =>
      intro b i hib
      cases b with
      | zero => exact absurd hib (Nat.not_lt_zero i)
      | succ b' =>
          cases i with
          | zero => rfl
          | succ i' => exact ih b' i' (Nat.succ_lt_succ_iff.mp hib)

theorem getD_congr_of_take_eq {α : Type} [Inhabited α] (l l' : List α) (b i : Nat)
    (h : l.take b = l'.take b) (hi : i < b) :
    l.getD i default = l'.getD i default := by
  rw [← getD_take l b i hi, h, getD_take l' b i hi]

theorem getD_append_left {α : Type} [Inhabited α] (l : List α) :
    ∀ (u : List α) (i : Nat), i < l.length → (l ++ u).getD i default = l.getD i default := by
  induction l with
  | nil => intro u i hi; exact absurd hi (Nat.not_lt_zero i)
  | cons x xs ih =>
      intro u i hi
      cases i with
      | zero => rfl
      | succ i' => exact ih u i' (Nat.succ_lt_succ_iff.mp hi)

theorem prefix_getD {α : Type} [Inhabited α] (l1 l2 : List α) (h : l1 <+: l2)
    (j : Nat) (hj : j < l1.length) : l2.getD j default = l1.getD j default := by
  obtain ⟨t, rfl⟩ := h
  exact getD_append_left l1 t j hj

theorem getD_set_ne {α : Type} [Inhabited α] (l : List α) :
    ∀ (a a' : Nat) (x : α), a' ≠ a → (l.set a x).getD a' default = l.getD a' default := by
  induction l with
  | nil => intro a a' x _; rfl
  | cons y ys ih =>
      intro a a' x hne
      cases a with
      | zero =>
          cases a' with
          | zero => exact absurd rfl hne
          | succ b' => rfl
      | succ a1 =>
          cases a' with
          | zero => rfl
          | succ b' => exact ih a1 b' x (fun he => hne (congrArg Nat.succ he))

theorem getD_set_self {α : Type} [Inhabited α] (l : List α) :
    ∀ (a : Nat) (x : α), a < l.length → (l.set a x).getD a default = x := by
  induction l with
  | nil => intro a x ha; exact absurd ha (Nat.not_lt_zero a)
  | cons y ys ih =>
      intro a x ha
      cases a with
      | zero => rfl
      | succ a1 => exact ih a1 x (Nat.succ_lt_succ_iff.mp ha)

theorem getD_len_le {α : Type} [Inhabited α] (l : List α) :
    ∀ (i : Nat), l.length ≤ i → l.getD i default = default := by
  induction l with
  | nil => intro i _; simp [List.getD]
  | cons y ys ih =>
      intro i hi
      cases i with
      | zero => exact absurd hi (by simp)
      | succ i' => exact ih i' (Nat.succ_le_succ_iff.mp hi)

theorem frameInv_applyOp (h0 : DbHeap) (pa : Option Nat) (bound : Nat)
    (hpa : ∀ a, pa = some a → a < h0.arrays.length)
    (h : DbHeap) (cc : CCRef) (op : CCOp)
    (inv : FrameInv h0 pa bound h cc) :
    FrameInv h0 pa bound (applyOp h cc op).1 (applyOp h cc op).2 := by
  have harrLen := inv.arrLen
  cases op with
  | setPrefix p =>
      exact ⟨inv.arrLen, inv.otherArrays, inv.paCells, inv.lonesPre,
        inv.ccPaLen, inv.ccFresh⟩
  | add c =>
      rcases harr : cc.columns.arr with _ | a0
      · simp only [applyOp, ccAdd, goAppend, harr]
        refine ⟨?_, ?_, ?_, ?_, ?_, ?_⟩
        · simpa using Nat.le_trans inv.arrLen (by simp)
        · intro a ha hpa'
          show (h.arrays ++ [(⟨[c]⟩ : Backing)]).getD a default = h0.arrays.getD a default
          rw [getD_append_left h.arrays _ a (Nat.lt_of_lt_of_le ha inv.arrLen)]
          exact inv.otherArrays a ha hpa'
        · intro a hpaa
          show (((h.arrays ++ [(⟨[c]⟩ : Backing)]).getD a default).cells.take bound) = _
          rw [getD_append_left h.arrays _ a
            (Nat.lt_of_lt_of_le (hpa a hpaa) inv.arrLen)]
          exact inv.paCells a hpaa
        · exact inv.lonesPre.trans (show h.lones <+: h.lones ++ [c] from ⟨[c], rfl⟩)
        · intro a ha hpaa
          have h1 : h.arrays.length = a := Option.some.inj ha
          have h2 := hpa a hpaa
          omega
        · intro a ha
          have h1 : h.arrays.length = a := Option.some.inj ha
          exact Or.inr (by omega)
      · by_cases hcap : cc.columns.len < (h.backing a0).cells.length
        · have ha0lt : a0 < h.arrays.length := by
            by_contra hge
            have : (h.backing a0).cells.length = 0 := by
              show ((h.arrays.getD a0 default).cells.length) = 0
              rw [getD_len_le h.arrays a0 (Nat.le_of_not_lt hge)]
              rfl
            omega
          simp only [applyOp, ccAdd, goAppend, harr, if_pos hcap]
          refine ⟨?_, ?_, ?_, ?_, ?_, ?_⟩
          · simpa [List.length_set] using inv.arrLen
          · intro a ha hpa'
            have hne : a ≠ a0 := by
              rcases inv.ccFresh a0 harr with hL | hR
              · intro he; exact hpa' (he ▸ hL)
              · omega
            show (h.arrays.set a0 _).getD a default = _
            rw [getD_set_ne h.arrays a0 a _ hne]
            exact inv.otherArrays a ha hpa'
          · intro a hpaa
            by_cases haa : a = a0
            · subst haa
              show ((h.arrays.set a _).getD a default).cells.take bound = _
              rw [getD_set_self h.arrays a _ ha0lt]
              show ((h.backing a).cells.set cc.columns.len c).take bound = _
              rw [take_set_of_le _ _ _ _ (inv.ccPaLen a harr hpaa)]
              exact inv.paCells a hpaa
            · show ((h.arrays.set a0 _).getD a default).cells.take bound = _
              rw [getD_set_ne h.arrays a0 a _ haa]
              exact inv.paCells a hpaa
          · exact inv.lonesPre.trans (show h.lones <+: h.lones ++ [c] from ⟨[c], rfl⟩)
          · intro a ha hpaa
            have h1 : a0 = a := Option.some.inj ha
            subst h1
            have := inv.ccPaLen a0 harr hpaa
            show bound ≤ cc.columns.len + 1
            omega
          · intro a ha
            have h1 : a0 = a := Option.some.inj ha
            exact h1 ▸ inv.ccFresh a0 harr
        · simp only [applyOp, ccAdd, goAppend, harr, if_neg hcap]
          refine ⟨?_, ?_, ?_, ?_, ?_, ?_⟩
          · simpa using Nat.le_trans inv.arrLen (by simp)
          · intro a ha hpa'
            show (h.arrays ++ _).getD a default = _
            rw [getD_append_left h.arrays _ a (Nat.lt_of_lt_of_le ha inv.arrLen)]
            exact inv.otherArrays a ha hpa'
          · intro a hpaa
            show ((h.arrays ++ _).getD a default).cells.take bound = _
            rw [getD_append_left h.arrays _ a
              (Nat.lt_of_lt_of_le (hpa a hpaa) inv.arrLen)]
            exact inv.paCells a hpaa
          · exact inv.lonesPre.trans (show h.lones <+: h.lones ++ [c] from ⟨[c], rfl⟩)
          · intro a ha hpaa
            have h1 : h.arrays.length = a := Option.some.inj ha
            have h2 := hpa a hpaa
            omega
          · intro a ha
            have h1 : h.arrays.length = a := Option.some.inj ha
            exact Or.inr (by omega)
  | remove name =>
      by_cases hk : ((sliceView h cc.columns).filter
          (fun c => decide (c.columnName ≠ name))).isEmpty = true
      · simp only [applyOp, ccRemove, hk, if_pos rfl]
        exact ⟨inv.arrLen, inv.otherArrays, inv.paCells, inv.lonesPre,
          fun a ha => Option.noConfusion ha, fun a ha => Option.noConfusion ha⟩
      · simp only [applyOp, ccRemove, hk, if_neg Bool.false_ne_true]
        refine ⟨?_, ?_, ?_, ?_, ?_, ?_⟩
        · simpa using Nat.le_trans inv.arrLen (by simp)
        · intro a ha hpa'
          show (h.arrays ++ _).getD a default = _
          rw [getD_append_left h.arrays _ a (Nat.lt_of_lt_of_le ha inv.arrLen)]
          exact inv.otherArrays a ha hpa'
        · intro a hpaa
          show ((h.arrays ++ _).getD a default).cells.take bound = _
          rw [getD_append_left h.arrays _ a
            (Nat.lt_of_lt_of_le (hpa a hpaa) inv.arrLen)]
          exact inv.paCells a hpaa
        · exact inv.lonesPre
        · intro a ha hpaa
          have h1 : h.arrays.length = a := Option.some.inj ha
          have h2 := hpa a hpaa
          omega
        · intro a ha
          have h1 : h.arrays.length = a := Option.some.inj ha
          exact Or.inr (by omega)

theorem frameInv_applyOps (h0 : DbHeap) (pa : Option Nat) (bound : Nat)
    (hpa : ∀ a, pa = some a → a < h0.arrays.length) :
    ∀ (ops : List CCOp) (h : DbHeap) (cc : CCRef),
      FrameInv h0 pa bound h cc →
      FrameInv h0 pa bound (applyOps h cc ops).1 (applyOps h cc ops).2 := by
  intro ops
  induction ops with
  | nil => intro h cc inv; exact inv
  | cons op rest ih =>
      intro h cc inv
      exact ih (applyOp h cc op).1 (applyOp h cc op).2
        (frameInv_applyOp h0 pa bound hpa h cc op inv)

theorem ccWf_arr {h : DbHeap} {cc : CCRef} (hwf : ccWf h cc = true) :
    ∀ a, cc.columns.arr = some a →
      a < h.arrays.length ∧ cc.columns.len ≤ (h.backing a).cells.length := by
  intro a ha
  have h1 := ((Bool.and_eq_true _ _).mp hwf).1
  rw [ha] at h1
  exact ⟨of_decide_eq_true ((Bool.and_eq_true _ _).mp h1).1,
    of_decide_eq_true ((Bool.and_eq_true _ _).mp h1).2⟩

theorem ccWf_lookup {h : DbHeap} {cc : CCRef} (hwf : ccWf h cc = true) :
    ∀ q ∈ cc.lookup,
      (∀ a i, q.2 = ColPtr.intoArr a i →
        cc.columns.arr = some a ∧ i < cc.columns.len) ∧
      (∀ j, q.2 = ColPtr.lone j → j < h.lones.length) := by
  intro q hq
  have h2 := ((Bool.and_eq_true _ _).mp hwf).2
  rw [List.all_eq_true] at h2
  have h3 := h2 q hq
  constructor
  · intro a i hai
    rw [hai] at h3
    exact ⟨of_decide_eq_true ((Bool.and_eq_true _ _).mp h3).1,
      of_decide_eq_true ((Bool.and_eq_true _ _).mp h3).2⟩
  · intro j hj
    rw [hj] at h3
    exact of_decide_eq_true h3

/-- C6: `Copy` (and `CopyWithColumnPrefix`) produce an independent
collection whose memoized subsets are reset to nil; and for every
well-formed source collection and every sequence of mutations of the copy
(membership changes via `Add`/`Remove`, or a prefix write), everything
observable about the source — its prefix, its column sequence, and its
lookup with pointers dereferenced — is unchanged. -/
theorem C6_copy_independent (h : DbHeap) (src : CCRef) (p : GoStr) (ops : List CCOp)
    (hwf : ccWf h src = true) :
    ccCopy h src = ccCopyWithColumnPrefix h src src.columnPrefix ∧
    (ccCopyWithColumnPrefix h src p).columnPrefix = p ∧
    (ccCopyWithColumnPrefix h src p).autosMemo = false ∧
    (ccCopyWithColumnPrefix h src p).notAutosMemo = false ∧
    (ccCopyWithColumnPrefix h src p).readOnlyMemo = false ∧
    (ccCopyWithColumnPrefix h src p).notReadOnlyMemo = false ∧
    (ccCopyWithColumnPrefix h src p).primaryKeysMemo = false ∧
    (ccCopyWithColumnPrefix h src p).notPrimaryKeysMemo = false ∧
    (ccCopyWithColumnPrefix h src p).writeColumnsMemo = false ∧
    (ccCopyWithColumnPrefix h src p).updateColumnsMemo = false ∧
    observe (applyOps h (ccCopyWithColumnPrefix h src p) ops).1 src = observe h src := by
  have hpa : ∀ a, src.columns.arr = some a → a < h.arrays.length :=
    fun a ha => (ccWf_arr hwf a ha).1
  have init : FrameInv h src.columns.arr src.columns.len h
      (ccCopyWithColumnPrefix h src p) := by
    refine ⟨Nat.le_refl _, fun a _ _ => rfl, fun a _ => rfl, List.prefix_refl _, ?_, ?_⟩
    · intro a _ _
      exact Nat.le_refl _
    · intro a ha
      exact Or.inl ha
  have fin := frameInv_applyOps h src.columns.arr src.columns.len hpa ops h
    (ccCopyWithColumnPrefix h src p) init
  have hview : sliceView (applyOps h (ccCopyWithColumnPrefix h src p) ops).1 src.columns
      = sliceView h src.columns := by
    rcases harr : src.columns.arr with _ | a
    · simp [sliceView, harr]
    · simp only [sliceView, harr]
      exact fin.paCells a harr
  have hlk : src.lookup.map
        (fun q => (q.1, readPtr (applyOps h (ccCopyWithColumnPrefix h src p) ops).1 q.2))
      = src.lookup.map (fun q => (q.1, readPtr h q.2)) := by
    refine List.map_congr_left ?_
    intro q hq
    have hql := ccWf_lookup hwf q hq
    rcases hptr : q.2 with ⟨a, i⟩ | j
    · obtain ⟨harr, hilt⟩ := hql.1 a i hptr
      have hcells := fin.paCells a harr
      simp only [readPtr]
      rw [getD_congr_of_take_eq _ _ src.columns.len i hcells hilt]
    · have hj := hql.2 j hptr
      simp only [readPtr]
      rw [prefix_getD h.lones _ fin.lonesPre j hj]
  refine ⟨rfl, rfl, rfl, rfl, rfl, rfl, rfl, rfl, rfl, rfl, ?_⟩
  simp only [observe, hview, hlk]

/-- Witness for C6: a copy of a concrete one-column collection (whose
backing array has spare capacity) is mutated by an add, a prefix write,
and a remove; the source observations are unchanged and the copy's
memoized subsets start out reset. -/
theorem C6_copy_independent_witness :
    ccCopy { arrays := [⟨[{ fieldName := gs "A", columnName := gs "a" }, {}]⟩], lones := [] }
        { columns := ⟨some 0, 1⟩, lookup := [(gs "a", ColPtr.intoArr 0 0)], columnPrefix := gs "p_" }
      = ccCopyWithColumnPrefix { arrays := [⟨[{ fieldName := gs "A", columnName := gs "a" }, {}]⟩], lones := [] }
          { columns := ⟨some 0, 1⟩, lookup := [(gs "a", ColPtr.intoArr 0 0)], columnPrefix := gs "p_" }
          ({ columns := ⟨some 0, 1⟩, lookup := [(gs "a", ColPtr.intoArr 0 0)], columnPrefix := gs "p_" } : CCRef).columnPrefix ∧
    (ccCopyWithColumnPrefix { arrays := [⟨[{ fieldName := gs "A", columnName := gs "a" }, {}]⟩], lones := [] }
        { columns := ⟨some 0, 1⟩, lookup := [(gs "a", ColPtr.intoArr 0 0)], columnPrefix := gs "p_" }
        (gs "q_")).columnPrefix = (gs "q_") ∧
    (ccCopyWithColumnPrefix { arrays := [⟨[{ fieldName := gs "A", columnName := gs "a" }, {}]⟩], lones := [] }
        { columns := ⟨some 0, 1⟩, lookup := [(gs "a", ColPtr.intoArr 0 0)], columnPrefix := gs "p_" }
        (gs "q_")).autosMemo = false ∧
    (ccCopyWithColumnPrefix { arrays := [⟨[{ fieldName := gs "A", columnName := gs "a" }, {}]⟩], lones := [] }
        { columns := ⟨some 0, 1⟩, lookup := [(gs "a", ColPtr.intoArr 0 0)], columnPrefix := gs "p_" }
        (gs "q_")).notAutosMemo = false ∧
    (ccCopyWithColumnPrefix { arrays := [⟨[{ fieldName := gs "A", columnName := gs "a" }, {}]⟩], lones := [] }
        { columns := ⟨some 0, 1⟩, lookup := [(gs "a", ColPtr.intoArr 0 0)], columnPrefix := gs "p_" }
        (gs "q_")).readOnlyMemo = false ∧
    (ccCopyWithColumnPrefix { arrays := [⟨[{ fieldName := gs "A", columnName := gs "a" }, {}]⟩], lones := [] }
        { columns := ⟨some 0, 1⟩, lookup := [(gs "a", ColPtr.intoArr 0 0)], columnPrefix := gs "p_" }
        (gs "q_")).notReadOnlyMemo = false ∧
    (ccCopyWithColumnPrefix { arrays := [⟨[{ fieldName := gs "A", columnName := gs "a" }, {}]⟩], lones := [] }
        { columns := ⟨some 0, 1⟩, lookup := [(gs "a", ColPtr.intoArr 0 0)], columnPrefix := gs "p_" }
        (gs "q_")).primaryKeysMemo = false ∧
    (ccCopyWithColumnPrefix { arrays := [⟨[{ fieldName := gs "A", columnName := gs "a" }, {}]⟩], lones := [] }
        { columns := ⟨some 0, 1⟩, lookup := [(gs "a", ColPtr.intoArr 0 0)], columnPrefix := gs "p_" }
        (gs "q_")).notPrimaryKeysMemo = false ∧
    (ccCopyWithColumnPrefix { arrays := [⟨[{ fieldName := gs "A", columnName := gs "a" }, {}]⟩], lones := [] }
        { columns := ⟨some 0, 1⟩, lookup := [(gs "a", ColPtr.intoArr 0 0)], columnPrefix := gs "p_" }
        (gs "q_")).writeColumnsMemo = false ∧
    (ccCopyWithColumnPrefix { arrays := [⟨[{ fieldName := gs "A", columnName := gs "a" }, {}]⟩], lones := [] }
        { columns := ⟨some 0, 1⟩, lookup := [(gs "a", ColPtr.intoArr 0 0)], columnPrefix := gs "p_" }
        (gs "q_")).updateColumnsMemo = false ∧
    observe (applyOps { arrays := [⟨[{ fieldName := gs "A", columnName := gs "a" }, {}]⟩], lones := [] }
        (ccCopyWithColumnPrefix { arrays := [⟨[{ fieldName := gs "A", columnName := gs "a" }, {}]⟩], lones := [] }
        { columns := ⟨some 0, 1⟩, lookup := [(gs "a", ColPtr.intoArr 0 0)], columnPrefix := gs "p_" }
        (gs "q_"))
        [CCOp.add { fieldName := gs "B", columnName := gs "b" }, CCOp.setPrefix (gs "x_"), CCOp.remove (gs "a")]).1
      { columns := ⟨some 0, 1⟩, lookup := [(gs "a", ColPtr.intoArr 0 0)], columnPrefix := gs "p_" }
      = observe { arrays := [⟨[{ fieldName := gs "A", columnName := gs "a" }, {}]⟩], lones := [] }
        { columns := ⟨some 0, 1⟩, lookup := [(gs "a", ColPtr.intoArr 0 0)], columnPrefix := gs "p_" } :=
  C6_copy_independent { arrays := [⟨[{ fieldName := gs "A", columnName := gs "a" }, {}]⟩], lones := [] }
    { columns := ⟨some 0, 1⟩, lookup := [(gs "a", ColPtr.intoArr 0 0)], columnPrefix := gs "p_" }
    (gs "q_")
    [CCOp.add { fieldName := gs "B", columnName := gs "b" }, CCOp.setPrefix (gs "x_"), CCOp.remove (gs "a")]
    (by decide)
